/-
  Verification development for the llm-council backend
  (three-stage ensemble reasoning gateway).

  The Lean definitions below are shallow embeddings of the Python
  functions in `llm-council/backend/` — `conversation_tracker.py`,
  `db_storage.py`, `config_manager.py`, `council.py` and `main.py` —
  translated function by function.  Machine integers are modelled as
  `Nat`/`Int` with explicit `% 2^32` where the algorithm (SHA-1)
  depends on 32-bit wraparound; Python floats in the ranking
  aggregation are modelled as exact rationals (`ℚ`), with Python's
  `round(x, 2)` modelled as round-half-to-even on rationals; fallible
  or non-terminating operations return `Option`.
-/

import Mathlib

set_option maxRecDepth 40000

namespace LlmCouncil

/-! ## Python string primitives

`pyStrip`, `pyLStrip` model `str.strip()`/`str.lstrip()` with the ASCII
whitespace characters (the inputs under study are ASCII).  `strIn pat s`
models Python's `pat in s` substring test; `strLower` models `str.lower()`
for ASCII text. -/

def pyWsChars : List Char := [' ', '\t', '\n', '\r', '\x0b', '\x0c']

def isPyWs (c : Char) : Bool := pyWsChars.contains c

def pyStripList (cs : List Char) : List Char :=
  ((cs.dropWhile isPyWs).reverse.dropWhile isPyWs).reverse

def pyStrip (s : String) : String := ⟨pyStripList s.data⟩

def pyLStrip (s : String) : String := ⟨s.data.dropWhile isPyWs⟩

/-- `hasSub pat cs`: `pat` occurs as a contiguous sublist of `cs`
(Python's `pat in s`; the empty pattern occurs in every string). -/
def hasSub (pat : List Char) : List Char → Bool
  | [] => pat.isEmpty
  | c :: t => pat.isPrefixOf (c :: t) || hasSub pat t

def strIn (pat s : String) : Bool := hasSub pat.data s.data

def strLower (s : String) : String := ⟨s.data.map Char.toLower⟩

/-- Python slice `s[:n]`. -/
def strTake (s : String) (n : Nat) : String := ⟨s.data.take n⟩

def digitsToNat (ds : List Char) : Nat :=
  ds.foldl (fun n c => 10 * n + (c.toNat - 48)) 0

/-- Python `s.split('\n')` at character level: `"" ↦ [""]`,
`"a\n" ↦ ["a", ""]`. -/
def splitNl : List Char → List (List Char)
  | [] => [[]]
  | c :: t =>
    if c = '\n' then [] :: splitNl t
    else
      match splitNl t with
      | h :: rest => (c :: h) :: rest
      | [] => [[c]]

def pySplitLines (s : String) : List String := (splitNl s.data).map String.mk

/-- Python `'\n'.join(lines)`. -/
def pyJoinLines : List String → String
  | [] => ""
  | [l] => l
  | l :: ls => l ++ "\n" ++ pyJoinLines ls

/-- Python `s.split(sep)` for a non-empty separator: leftmost,
non-overlapping, keeping empty segments.  The fuel argument
(instantiated with the input length) only bounds the recursion. -/
def pySplitAux (sep : List Char) : Nat → List Char → List Char → List String
  | _, acc, [] => [String.mk acc.reverse]
  | 0, acc, cs => [String.mk (acc.reverse ++ cs)]
  | fuel + 1, acc, c :: t =>
    if sep.isPrefixOf (c :: t) then
      String.mk acc.reverse :: pySplitAux sep fuel [] ((c :: t).drop sep.length)
    else pySplitAux sep fuel (c :: acc) t

def pySplit (s sep : String) : List String :=
  pySplitAux sep.data s.data.length [] s.data

/-- `p` is a prefix of `s` (Python `s.startswith(p)`). -/
def strStartsWith (s p : String) : Bool := p.data.isPrefixOf s.data

/-- `sep.join(parts)`. -/
def joinWith (sep : String) : List String → String
  | [] => ""
  | [x] => x
  | x :: xs => x ++ sep ++ joinWith sep xs

/-! ## SHA-1 and UUID version 5

`uuid.uuid5(namespace, name)` is SHA-1 over the namespace bytes followed
by the UTF-8 encoding of `name`, with the version and variant bits
forced.  Bytes are `Nat` values below 256; 32-bit words are `Nat` values
reduced `% 2^32` at every operation. -/

def utf8Char (c : Char) : List Nat :=
  let n := c.toNat
  if n < 0x80 then [n]
  else if n < 0x800 then [0xC0 + n / 0x40, 0x80 + n % 0x40]
  else if n < 0x10000 then
    [0xE0 + n / 0x1000, 0x80 + (n / 0x40) % 0x40, 0x80 + n % 0x40]
  else
    [0xF0 + n / 0x40000, 0x80 + (n / 0x1000) % 0x40,
     0x80 + (n / 0x40) % 0x40, 0x80 + n % 0x40]

def utf8Bytes (s : String) : List Nat := s.data.flatMap utf8Char

def w32 : Nat := 4294967296

def rotl (n x : Nat) : Nat := (x * 2 ^ n) % w32 + x / 2 ^ (32 - n)

def notw (x : Nat) : Nat := x ^^^ 4294967295

def be64 (n : Nat) : List Nat :=
  [n / 2^56 % 256, n / 2^48 % 256, n / 2^40 % 256, n / 2^32 % 256,
   n / 2^24 % 256, n / 2^16 % 256, n / 2^8 % 256, n % 256]

def be32 (n : Nat) : List Nat :=
  [n / 2^24 % 256, n / 2^16 % 256, n / 2^8 % 256, n % 256]

def sha1Pad (msg : List Nat) : List Nat :=
  let l := msg.length
  let zeros := (119 - l % 64) % 64
  msg ++ [0x80] ++ List.replicate zeros 0 ++ be64 (8 * l)

def bytesToWord : List Nat → Nat
  | [a, b, c, d] => a * 2^24 + b * 2^16 + c * 2^8 + d
  | _ => 0

/-- Split into chunks of `n` elements (`n ≥ 1` at every use site;
`cur` is the current chunk reversed, `k` the remaining capacity). -/
def chunkGo (n : Nat) : List α → List α → Nat → List (List α)
  | [], cur, _ => if cur.isEmpty then [] else [cur.reverse]
  | x :: xs, cur, k =>
    if k ≤ 1 then (x :: cur).reverse :: chunkGo n xs [] n
    else chunkGo n xs (x :: cur) (k - 1)

def chunkList (n : Nat) (l : List α) : List (List α) := chunkGo n l [] n

/-- The 80-word message schedule, extended from the 16 block words
(the word at index `i = ws.length` is appended at each of the 64
steps). -/
def sha1Schedule (ws : List Nat) : Nat → List Nat
  | 0 => ws
  | steps + 1 =>
    let i := ws.length
    let get (k : Nat) : Nat := ws.getD (i - k) 0
    let w := rotl 1 (((get 3 ^^^ get 8) ^^^ get 14) ^^^ get 16)
    sha1Schedule (ws ++ [w]) steps

def sha1F (i b c d : Nat) : Nat :=
  if i < 20 then (b &&& c) ||| (notw b &&& d)
  else if i < 40 then (b ^^^ c) ^^^ d
  else if i < 60 then ((b &&& c) ||| (b &&& d)) ||| (c &&& d)
  else (b ^^^ c) ^^^ d

def sha1K (i : Nat) : Nat :=
  if i < 20 then 0x5A827999
  else if i < 40 then 0x6ED9EBA1
  else if i < 60 then 0x8F1BBCDC
  else 0xCA62C1D6

def sha1Block (h : List Nat) (block : List Nat) : List Nat :=
  let ws0 := (chunkList 4 block).map bytesToWord
  let ws := sha1Schedule ws0 64
  let init := (h.getD 0 0, h.getD 1 0, h.getD 2 0, h.getD 3 0, h.getD 4 0)
  let fin := (List.range 80).foldl
    (fun (st : Nat × Nat × Nat × Nat × Nat) i =>
      let (a, b, c, d, e) := st
      let temp := (rotl 5 a + sha1F i b c d + e + sha1K i + ws.getD i 0) % w32
      (temp, a, rotl 30 b, c, d)) init
  let (a, b, c, d, e) := fin
  [(h.getD 0 0 + a) % w32, (h.getD 1 0 + b) % w32, (h.getD 2 0 + c) % w32,
   (h.getD 3 0 + d) % w32, (h.getD 4 0 + e) % w32]

def sha1 (msg : List Nat) : List Nat :=
  let blocks := chunkList 64 (sha1Pad msg)
  let h := blocks.foldl sha1Block
    [0x67452301, 0xEFCDAB89, 0x98BADCFE, 0x10325476, 0xC3D2E1F0]
  h.flatMap be32

def hexDigit (n : Nat) : Char :=
  if n < 10 then Char.ofNat (48 + n) else Char.ofNat (87 + n)

def hexByte (n : Nat) : List Char := [hexDigit (n / 16), hexDigit (n % 16)]

/-- Namespace used by `conversation_tracker.py`
(`6ba7b810-9dad-11d1-80b4-00c04fd430c8`, i.e. `NAMESPACE_DNS`), as bytes. -/
def continueNamespaceBytes : List Nat :=
  [0x6b, 0xa7, 0xb8, 0x10, 0x9d, 0xad, 0x11, 0xd1,
   0x80, 0xb4, 0x00, 0xc0, 0x4f, 0xd4, 0x30, 0xc8]

/-- `str(uuid.uuid5(ns, name))`: SHA-1 of namespace bytes ++ UTF-8 name,
first 16 bytes, version nibble forced to 5 and variant bits to `10`,
rendered as lowercase hex with dashes. -/
def uuid5 (nsBytes : List Nat) (name : String) : String :=
  let d := sha1 (nsBytes ++ utf8Bytes name)
  let b := fun i => d.getD i 0
  let bytes := [b 0, b 1, b 2, b 3, b 4, b 5, (b 6) % 16 + 0x50, b 7,
                (b 8) % 64 + 0x80, b 9, b 10, b 11, b 12, b 13, b 14, b 15]
  let hx := fun i => hexByte (bytes.getD i 0)
  ⟨hx 0 ++ hx 1 ++ hx 2 ++ hx 3 ++ ['-'] ++ hx 4 ++ hx 5 ++ ['-'] ++
   hx 6 ++ hx 7 ++ ['-'] ++ hx 8 ++ hx 9 ++ ['-'] ++
   hx 10 ++ hx 11 ++ hx 12 ++ hx 13 ++ hx 14 ++ hx 15⟩

/-! ## conversation_tracker.py -/

/-- One entry of the `messages` array the Continue plugin sends
(`{"role": ..., "content": ...}`). -/
structure Msg where
  role : String
  content : String
  deriving DecidableEq, Repr

/-- JSON string escaping as `json.dumps` performs it with the default
`ensure_ascii=True`. -/
def jsonEscapeChar (c : Char) : List Char :=
  let n := c.toNat
  if c = '"' then ['\\', '"']
  else if c = '\\' then ['\\', '\\']
  else if c = '\n' then ['\\', 'n']
  else if c = '\t' then ['\\', 't']
  else if c = '\r' then ['\\', 'r']
  else if n = 0x08 then ['\\', 'b']
  else if n = 0x0c then ['\\', 'f']
  else if n < 0x20 then
    '\\' :: 'u' :: hexByte (n / 256) ++ hexByte (n % 256)
  else if n < 0x7f then [c]
  else if n < 0x10000 then
    '\\' :: 'u' :: hexByte (n / 256) ++ hexByte (n % 256)
  else
    let m := n - 0x10000
    let hi := 0xD800 + m / 0x400
    let lo := 0xDC00 + m % 0x400
    '\\' :: 'u' :: hexByte (hi / 256) ++ hexByte (hi % 256) ++
      '\\' :: 'u' :: hexByte (lo / 256) ++ hexByte (lo % 256)

def jsonString (s : String) : String :=
  ⟨'"' :: s.data.flatMap jsonEscapeChar ++ ['"']⟩

/-- `json.dumps(messages, sort_keys=True)` for a list of
`{"role": ..., "content": ...}` dicts: keys are emitted in sorted order
(`content` before `role`), with the default `", "`/`": "` separators. -/
def jsonDumpsMessages (msgs : List Msg) : String :=
  "[" ++ joinWith ", "
    (msgs.map (fun m =>
      "\x7b\"content\": " ++ jsonString m.content ++
      ", \"role\": " ++ jsonString m.role ++ "\x7d")) ++ "]"

/-- The first message with `role == "user"`, if any (its `content`,
defaulting to `""`, is total in this model). -/
def firstUserMessage (msgs : List Msg) : Option String :=
  (msgs.find? (fun m => m.role == "user")).map (·.content)

/-- `generate_conversation_id` (conversation_tracker.py lines 13–43):
UUIDv5 of `"continue:" + first_user_message` — but when the first user
message is missing *or falsy* (the empty string), the name is
`"continue:" + json.dumps(messages, sort_keys=True)` instead. -/
def generate_conversation_id (msgs : List Msg) : String :=
  let fallbackName := "continue:" ++ jsonDumpsMessages msgs
  let name :=
    match firstUserMessage msgs with
    | none => fallbackName
    | some c => if c = "" then fallbackName else "continue:" ++ c
  uuid5 continueNamespaceBytes name

/-! ## db_storage.py — the Continue conversation store

The PostgreSQL `chat` table is modelled as an association list from
conversation id to the conversation's row; only the fields the claims
touch (`title` and the JSONB `messages` array) are kept.  Timestamps and
per-message stage artifacts are wall-clock data that do not affect the
counts, roles or contents under study and are omitted.  The database is
taken as reachable (claim C2 assumes storage enabled and working). -/

structure Conv where
  title : String
  messages : List Msg
  deriving DecidableEq, Repr

abbrev Store := List (String × Conv)

def get_continue_conversation (store : Store) (cid : String) : Option Conv :=
  (store.find? (fun e => e.1 == cid)).map (·.2)

/-- Title default in `create_continue_conversation`:
`first_message[:50] + "..." if len(first_message) > 50 else first_message`. -/
def defaultTitle (fm : String) : String :=
  if fm.length > 50 then strTake fm 50 ++ "..." else fm

/-- `create_continue_conversation` (db_storage.py lines 57–155): inserts a
row whose `messages` array holds one seed user message built from
`first_message`.  A falsy `title` argument is replaced by the default. -/
def create_continue_conversation (store : Store) (cid fm : String)
    (title : Option String) : Store :=
  let t := match title with
    | some t => if t = "" then defaultTitle fm else t
    | none => defaultTitle fm
  store ++ [(cid, { title := t, messages := [⟨"user", fm⟩] })]

/-- `add_message_to_conversation` (db_storage.py lines 292–359):
read-modify-write append of one message; `false` when the id is absent. -/
def add_message_to_conversation (store : Store) (cid role content : String) :
    Store × Bool :=
  match get_continue_conversation store cid with
  | none => (store, false)
  | some conv =>
    (store.map (fun e =>
      if e.1 == cid then
        (e.1, { conv with messages := conv.messages ++ [⟨role, content⟩] })
      else e), true)

/-! ## main.py `chat_completions` — database side effects

`chat_completions_store` is the sequence of store operations the
`/v1/chat/completions` handler performs (main.py lines 510–890), in
source order: conversation creation, the user-message append, the
assistant-message append performed "BEFORE deciding on streaming"
(line 718), and — in the non-streaming branch — the second
assistant-message append (line 842).  The engine outcome and the
post-processed response text are passed in (`run_full_council` and the
markdown/footer post-processing compute them from HTTP calls and
wall-clock time; neither touches the store). -/

/-- Python truthiness of an optional string (`None` and `""` are falsy). -/
def optTruthy : Option String → Bool
  | some s => !(s == "")
  | none => false

/-- The engine outcome fields the gateway's control flow inspects. -/
structure EngineResult where
  stage3Model : String
  stage3Response : String
  deriving Repr

def chat_completions_store (enableDb : Bool) (messages : List Msg)
    (stream forceStreaming : Bool) (engine : EngineResult)
    (finalContent : String) (store : Store) : Store :=
  let cid : Option String :=
    if enableDb then some (generate_conversation_id messages) else none
  -- conversation creation (lines 536–563): only when no row exists and a
  -- truthy first user message is present
  let store :=
    match cid with
    | some id =>
      match get_continue_conversation store id with
      | none =>
        match firstUserMessage messages with
        | some fm =>
          if fm = "" then store
          else create_continue_conversation store id fm (some (defaultTitle fm))
        | none => store
      | some _ => store
    | none => store
  let user_queries := (messages.filter (fun m => m.role == "user")).map (·.content)
  match user_queries.getLast? with
  | none => store   -- 400 "No user message found" (line 583)
  | some uq =>
    -- user message saved before the engine runs (line 589)
    let store := if enableDb && optTruthy cid then
        (add_message_to_conversation store (cid.getD "") "user" uq).1
      else store
    if engine.stage3Model = "error" then store       -- error envelope (line 621)
    else if engine.stage3Response = "" then store    -- empty-content 500 (line 652)
    else
      -- assistant saved before the streaming decision (lines 708–723)
      let store := if enableDb && optTruthy cid then
          (add_message_to_conversation store (cid.getD "") "assistant" finalContent).1
        else store
      if stream || forceStreaming then store
      else
        -- the non-streaming branch saves the assistant message again
        -- (lines 836–848)
        if enableDb && optTruthy cid then
          (add_message_to_conversation store (cid.getD "") "assistant" finalContent).1
        else store

/-! ## config_manager.py

The module state is `_config_cache`, the overlay file, the environment
snapshot and the `asyncio.Lock` guarding them.  An `asyncio.Lock` is not
reentrant: an `async with` on a lock the current task already holds
waits forever.  Every operation is therefore modelled as
`ConfigState → Option (value × ConfigState)`, where `none` means the
coroutine never completes (it blocks on the lock, or an inner call
does).  A missing or JSON-null `chairman_model` key is modelled as
`none`, read back as `""` where the source applies `.get(..., "")`. -/

structure ConfigMap where
  council_models : List String
  chairman_model : Option String
  backend_mode : String
  ollama_base_url : String
  deriving DecidableEq, Repr

structure ConfigState where
  env : ConfigMap          -- the `_load_default_config()` environment snapshot
  file : Option ConfigMap  -- the overlay file (`none`: absent or unreadable)
  cache : Option ConfigMap -- `_config_cache`
  locked : Bool            -- `_config_lock`
  deriving Repr

/-- `set(a) == set(b)` for the critical `council_models` comparison. -/
def sameSet (a b : List String) : Bool :=
  a.all (fun x => b.contains x) && b.all (fun x => a.contains x)

/-- `get_config` (config_manager.py lines 61–104): under the lock, resolve
the cache from environment and overlay file (environment wins when the
critical keys differ, rewriting the file), and return a copy. -/
def get_config (s : ConfigState) : Option (ConfigMap × ConfigState) :=
  if s.locked then none
  else
    let s1 : ConfigState := { s with locked := true }
    let s2 : ConfigState :=
      match s1.cache with
      | some _ => s1
      | none =>
        let envc := s1.env
        match s1.file with
        | some fc =>
          if !sameSet fc.council_models envc.council_models
              || fc.chairman_model.getD "" ≠ envc.chairman_model.getD "" then
            { s1 with cache := some envc, file := some envc }
          else
            { s1 with cache := some fc }
        | none => { s1 with cache := some envc, file := some envc }
    match s2.cache with
    | some c => some (c, { s2 with locked := false })
    | none => none

/-- `update_config` (config_manager.py lines 107–136): acquires
`_config_lock`, then calls `get_config()` — which acquires the same
(non-reentrant) lock — before applying the updates. -/
def update_config (cm : Option (List String)) (ch : Option String)
    (s : ConfigState) : Option (ConfigMap × ConfigState) :=
  if s.locked then none
  else
    let s1 : ConfigState := { s with locked := true }
    match get_config s1 with
    | none => none
    | some (cur, s2) =>
      let cur := match cm with
        | some v => { cur with council_models := v }
        | none => cur
      let cur := match ch with
        | some v => { cur with chairman_model := some v }
        | none => cur
      some (cur, { s2 with cache := some cur, file := some cur, locked := false })

/-- `reload_config` (config_manager.py lines 139–148): clears the cache
under the lock and calls `get_config()` while still holding it. -/
def reload_config (s : ConfigState) : Option (ConfigMap × ConfigState) :=
  if s.locked then none
  else
    let s1 : ConfigState := { s with locked := true, cache := none }
    get_config s1

/-- `model.split(":")[0]`. -/
def beforeColon (m : String) : String := (pySplit m ":").headD ""

/-- The per-model availability test of `validate_ollama_models`
(config_manager.py lines 174–181), given the names the backend's
`/api/tags` endpoint returned: exact membership, or some available name
starting with the requested id's part before the first `:`.  (With a
non-Ollama backend, or when the listing call fails, the source returns
`True` for every id; the claim is about the reachable-backend path.) -/
def validate_model (available : List String) (m : String) : Bool :=
  available.contains m
    || available.any (fun a => strStartsWith a (beforeColon m))

/-- `validate_ollama_models` over the requested list. -/
def validate_ollama_models (available models : List String) :
    List (String × Bool) :=
  models.map (fun m => (m, validate_model available m))

/-! ## council.py

`query_model` (ollama_adapter.py lines 14–71) returns
`{'content': ..., 'reasoning_details': None}` on any 2xx response —
including one whose message content is the empty string — and `None` on
any failure; it is modelled as `Option Reply`.  `query_models_parallel`
returns the model→result dict in the input model order. -/

structure Reply where
  content : String
  deriving DecidableEq, Repr

structure Stage1R where
  model : String
  response : String
  deriving DecidableEq, Repr

structure Stage2R where
  model : String
  ranking : String
  parsed_ranking : List String
  deriving DecidableEq, Repr

structure AggEntry where
  model : String
  average_rank : ℚ
  rankings_count : Nat
  deriving DecidableEq, Repr

/-- The result-collection loop of `stage1_collect_responses` (council.py
lines 58–84): a member's reply enters the Stage 1 results exactly when
its call returned a response object (`response is not None`); the
content is taken as-is, empty or not.  Failed members are dropped. -/
def stage1_collect_responses (responses : List (String × Option Reply)) :
    List Stage1R :=
  responses.filterMap (fun p => p.2.map (fun resp => ⟨p.1, resp.content⟩))

def isUpperAZ (c : Char) : Bool := 'A' ≤ c && c ≤ 'Z'

def respPat : List Char := "Response ".data

/-- A match of `\d+\.\s*Response [A-Z]` anchored at the head of the
input: `(matched characters, rest after the match)`. -/
def matchNumRespAt (cs : List Char) : Option (List Char × List Char) :=
  let ds := cs.takeWhile Char.isDigit
  if ds.isEmpty then none
  else
    match cs.drop ds.length with
    | '.' :: r2 =>
      let ws := r2.takeWhile isPyWs
      let r3 := r2.drop ws.length
      if respPat.isPrefixOf r3 then
        match r3.drop 9 with
        | u :: r4 =>
          if isUpperAZ u then some (ds ++ '.' :: ws ++ respPat ++ [u], r4)
          else none
        | [] => none
      else none
    | _ => none

/-- `re.findall(r'\d+\.\s*Response [A-Z]', ·)`: leftmost, non-overlapping.
The fuel argument (instantiated with the input length) only bounds the
recursion; every step consumes at least one character. -/
def findallNumResp : Nat → List Char → List (List Char)
  | 0, _ => []
  | _, [] => []
  | fuel + 1, c :: t =>
    match matchNumRespAt (c :: t) with
    | some (m, rest) => m :: findallNumResp fuel rest
    | none => findallNumResp fuel t

/-- A match of `Response [A-Z]` anchored at the head of the input. -/
def matchRespAt (cs : List Char) : Option (List Char × List Char) :=
  if respPat.isPrefixOf cs then
    match cs.drop 9 with
    | u :: r => if isUpperAZ u then some (respPat ++ [u], r) else none
    | [] => none
  else none

/-- `re.findall(r'Response [A-Z]', ·)`. -/
def findallResp : Nat → List Char → List (List Char)
  | 0, _ => []
  | _, [] => []
  | fuel + 1, c :: t =>
    match matchRespAt (c :: t) with
    | some (m, rest) => m :: findallResp fuel rest
    | none => findallResp fuel t

/-- `re.search(r'Response [A-Z]', ·)`: the first occurrence. -/
def searchResp : Nat → List Char → Option (List Char)
  | 0, _ => none
  | _, [] => none
  | fuel + 1, c :: t =>
    match matchRespAt (c :: t) with
    | some (m, _) => some m
    | none => searchResp fuel t

/-- `parse_ranking_from_text` (council.py lines 426–457).  After the
`FINAL RANKING:` sentinel (Python `split` takes the segment *between*
the first and second occurrences), numbered `N. Response X` matches are
taken in order, reduced to their `Response X` part; with no numbered
match, bare `Response X` occurrences in the segment; with no sentinel,
bare occurrences over the whole text. -/
def parse_ranking_from_text (text : String) : List String :=
  let wholeFallback :=
    (findallResp text.data.length text.data).map (fun m => String.mk m)
  if strIn "FINAL RANKING:" text then
    match pySplit text "FINAL RANKING:" with
    | _ :: sec :: _ =>
      let cs := sec.data
      let numbered := findallNumResp cs.length cs
      if !numbered.isEmpty then
        numbered.map (fun m => String.mk ((searchResp m.length m).getD []))
      else
        (findallResp cs.length cs).map (fun m => String.mk m)
    | _ => wholeFallback
  else wholeFallback

/-- Append a position to a model's entry in the accumulating
position table (`defaultdict(list)` with insertion-ordered keys). -/
def addPos (name : String) (pos : Nat) :
    List (String × List Nat) → List (String × List Nat)
  | [] => [(name, [pos])]
  | (n, ps) :: rest =>
    if n == name then (n, ps ++ [pos]) :: rest
    else (n, ps) :: addPos name pos rest

/-- `for position, label in enumerate(parsed_ranking, start=1)`:
positions count every parsed label, but only labels present in
`label_to_model` are recorded. -/
def addParsed (ltm : List (String × String)) :
    List (String × List Nat) → List String → Nat → List (String × List Nat)
  | acc, [], _ => acc
  | acc, label :: rest, pos =>
    addParsed ltm
      (match ltm.lookup label with
       | some name => addPos name pos acc
       | none => acc) rest (pos + 1)

def collectPositions (stage2_results : List Stage2R)
    (ltm : List (String × String)) : List (String × List Nat) :=
  stage2_results.foldl
    (fun acc r => addParsed ltm acc (parse_ranking_from_text r.ranking) 1) []

/-- Round half to even at integer precision: the model of Python's
`round` (exact on the values arising here; Python rounds the nearest
binary double, which agrees on such values). -/
def roundHalfEven (x : ℚ) : ℤ :=
  let f := Int.floor x
  let r := x - f
  if r < 1/2 then f
  else if 1/2 < r then f + 1
  else if f % 2 = 0 then f else f + 1

/-- `round(x, 2)`. -/
def pyRound2 (x : ℚ) : ℚ := (roundHalfEven (x * 100) : ℚ) / 100

/-- Stable ascending insertion by `average_rank`: the element is placed
after every earlier element with a key `≤` its own.  Python's
`list.sort(key=...)` is stable, and a stable ascending sort has a unique
result, so this equals the source's sort. -/
def insertByRank (x : AggEntry) : List AggEntry → List AggEntry
  | [] => [x]
  | y :: ys =>
    if y.average_rank ≤ x.average_rank then y :: insertByRank x ys
    else x :: y :: ys

def sortByRank (l : List AggEntry) : List AggEntry :=
  l.foldl (fun acc x => insertByRank x acc) []

/-- `calculate_aggregate_rankings` (council.py lines 460–504). -/
def calculate_aggregate_rankings (stage2_results : List Stage2R)
    (label_to_model : List (String × String)) : List AggEntry :=
  let positions := collectPositions stage2_results label_to_model
  let aggregate := positions.filterMap (fun e =>
    if e.2.isEmpty then none
    else some { model := e.1,
                average_rank := pyRound2 ((e.2.sum : ℚ) / (e.2.length : ℚ)),
                rankings_count := e.2.length })
  sortByRank aggregate

/-- The `labels` / `label_to_model` construction of council.py lines
242–246: `Response A`, `Response B`, … in Stage 1 order. -/
def stage1Labels (stage1_results : List Stage1R) : List (String × String) :=
  stage1_results.enum.map (fun p =>
    ("Response " ++ String.mk [Char.ofNat (65 + p.1)], p.2.model))

/-- `stage3_synthesize_final`'s return value: the success dict carries
`primary_source`, `top_ranked_model` and `confidence`; the
chairman-failure dict has only `model` and `response` (fields `none`). -/
structure Stage3Result where
  model : String
  response : String
  primary_source : Option String := none
  top_ranked_model : Option String := none
  confidence : Option ℤ := none
  deriving DecidableEq, Repr

/-- Extraction of the `# Primary source:` line (council.py lines
322–329): the first line containing the marker, split on the marker,
element 1, stripped.  (The `except` clause maps any failure to `None`.) -/
def parsePrimarySource (content : String) : Option String :=
  if strIn "# Primary source:" content then
    match (pySplitLines content).find? (fun l => strIn "# Primary source:" l) with
    | some line =>
      match pySplit line "# Primary source:" with
      | _ :: x :: _ => some (pyStrip x)
      | _ => none
    | none => none
  else none

/-- `re.search(r'(\d+)%', ·)`: the first maximal digit run immediately
followed by `%`. -/
def findPct : Nat → List Char → Option Nat
  | 0, _ => none
  | _, [] => none
  | fuel + 1, c :: t =>
    if c.isDigit then
      let ds := (c :: t).takeWhile Char.isDigit
      let rest := (c :: t).drop ds.length
      match rest with
      | '%' :: _ => some (digitsToNat ds)
      | _ => findPct fuel rest
    else findPct fuel t

/-- Extraction of the `# Confidence:` value (council.py lines 332–344). -/
def parseChairmanConfidence (content : String) : Option Nat :=
  if strIn "# Confidence:" content then
    match (pySplitLines content).find? (fun l => strIn "# Confidence:" l) with
    | some line =>
      match pySplit line "# Confidence:" with
      | _ :: x :: _ =>
        let s := pyStrip x
        findPct s.data.length s.data
      | _ => none
    | none => none
  else none

/-- Python `int()` truncation toward zero on a rational. -/
def pyTrunc (q : ℚ) : ℤ := if 0 ≤ q then Int.floor q else -Int.floor (-q)

/-- The base-confidence computation of council.py lines 354–368: the
chairman's self-reported value when parsed, else the consensus-derived
fallback from the aggregate rankings. -/
def stage3_base_confidence (chairman_confidence : Option Nat)
    (aggregate_rankings : List AggEntry) : ℤ :=
  match chairman_confidence with
  | some c => (c : ℤ)
  | none =>
    match aggregate_rankings with
    | [] => 70
    | [_] => 75
    | a :: b :: _ =>
      min 90 (max 60 (70 + pyTrunc ((b.average_rank - a.average_rank) * 10)))

/-- The correctness-penalty computation of council.py lines 370–408. -/
def stage3_penalties (content user_query : String)
    (stage1_results : List Stage1R) (top_model : Option String) : ℤ :=
  let cl := strLower content
  let uql := strLower user_query
  let p1 : ℤ := if strIn "-> bool" cl && strIn "tuple" uql then 30 else 0
  let p2 : ℤ :=
    if strIn "-> str" cl && strIn "tuple" uql && !strIn "-> tuple" cl then 30
    else 0
  let p3 : ℤ :=
    if strIn "def validate_email" cl && !strIn "-> tuple" cl
        && strIn "tuple" uql then 30
    else 0
  -- Line 388 is a conditional *expression*:
  -- `('tuple' in uql and '(' not in content.split('return')[1][:20])
  --    if 'return' in content else ''` — the `else` arm is falsy.
  let p4 : ℤ :=
    if strIn "return false" cl || strIn "return true" cl then
      let cond : Bool :=
        if strIn "return" content then
          strIn "tuple" uql
            && !strIn "(" (strTake ((pySplit content "return").getD 1 "") 20)
        else false
      if cond then 20 else 0
    else 0
  let p5 : ℤ :=
    if strIn "normalize" uql || strIn "lowercase" uql then
      (if !strIn "lower()" cl && strIn "lowercase" uql then (15 : ℤ) else 0)
        + (if !strIn "strip()" cl && strIn "trim" uql then (10 : ℤ) else 0)
    else 0
  let p6 : ℤ :=
    if optTruthy top_model && !stage1_results.isEmpty then
      match stage1_results.find? (fun r => r.model == top_model.getD "") with
      | some tr =>
        let rt := strLower tr.response
        (if strIn "-> bool" rt && strIn "tuple" uql then (10 : ℤ) else 0)
          + (if strIn "return false" rt && strIn "tuple" uql then (5 : ℤ) else 0)
      | none => 0
    else 0
  p1 + p2 + p3 + p4 + p5 + p6

/-- `stage3_synthesize_final` (council.py lines 206–423), from the point
where the chairman's reply (or failure, `none`) is in hand.  The
label map and aggregate rankings are recomputed from the Stage 1/2
results exactly as in the source (lines 241–250). -/
def stage3_synthesize_final (chairman_model : String) (user_query : String)
    (stage1_results : List Stage1R) (stage2_results : List Stage2R)
    (chairmanReply : Option Reply) : Stage3Result :=
  let label_to_model := stage1Labels stage1_results
  let aggregate_rankings :=
    calculate_aggregate_rankings stage2_results label_to_model
  let top_model : Option String := aggregate_rankings.head?.map (·.model)
  match chairmanReply with
  | none =>
    { model := chairman_model,
      response := "Error: Unable to generate final synthesis." }
  | some reply =>
    let content := reply.content
    let primary_source0 := parsePrimarySource content
    let chairman_confidence := parseChairmanConfidence content
    -- `if not primary_source and top_model:` then `if not primary_source:`
    let ps1 : Option String :=
      if !optTruthy primary_source0 && optTruthy top_model then top_model
      else primary_source0
    let ps2 : Option String :=
      if !optTruthy ps1 then some chairman_model else ps1
    -- base confidence (lines 354–368) and penalties (lines 370–408)
    let base_confidence := stage3_base_confidence chairman_confidence aggregate_rankings
    let penalties := stage3_penalties content user_query stage1_results top_model
    -- `confidence = max(30, base_confidence - penalties)` (line 411)
    let confidence := max 30 (base_confidence - penalties)
    { model := chairman_model, response := content,
      primary_source := ps2, top_ranked_model := top_model,
      confidence := some confidence }

/-! ## main.py `format_markdown_response` (lines 31–137)

A line-based first pass (bullet/numbered-list normalisation, blank-line
collapsing, list-boundary blank lines), then three regex passes:
header spacing applied outside fenced code blocks, collapse of `\n{4,}`
runs to three, and a blank line inserted before list markers.  Each
regex is implemented with the leftmost, non-overlapping semantics of
`re.findall`/`re.sub`/`re.split`; fuel arguments are instantiated with
the input length (every step consumes at least one character). -/

inductive ListType where
  | bullet
  | numbered
  deriving DecidableEq, Repr

structure MdState where
  in_list : Bool
  list_type : Option ListType
  counter : Nat
  out : List String
  deriving Repr

/-- `re.match(r'^[-*•]\s+(.+)$', stripped)`: group 1.  (The input is
already stripped, so the greedy `\s+`/`(.+)$` split is the maximal
whitespace run followed by the non-empty remainder.) -/
def matchBulletLine (stripped : String) : Option String :=
  match stripped.data with
  | c :: rest =>
    if c = '-' || c = '*' || c = '•' then
      let ws := rest.takeWhile isPyWs
      let tail := rest.drop ws.length
      if !ws.isEmpty && !tail.isEmpty then some (String.mk tail) else none
    else none
  | [] => none

/-- `re.match(r'^(\d+)[.)]\s+(.+)$', stripped)`: groups 1 (as a number)
and 2. -/
def matchNumberedLine (stripped : String) : Option (Nat × String) :=
  let ds := stripped.data.takeWhile Char.isDigit
  if ds.isEmpty then none
  else
    match stripped.data.drop ds.length with
    | b :: rest =>
      if b = '.' || b = ')' then
        let ws := rest.takeWhile isPyWs
        let tail := rest.drop ws.length
        if !ws.isEmpty && !tail.isEmpty then some (digitsToNat ds, String.mk tail)
        else none
      else none
    | [] => none

/-- `re.match(r'^\d+[.)]', s)` as a test. -/
def numListPrefix (s : String) : Bool :=
  let ds := s.data.takeWhile Char.isDigit
  !ds.isEmpty &&
    (match s.data.drop ds.length with
     | b :: _ => b = '.' || b = ')'
     | [] => false)

def lastNonblank (out : List String) : Bool :=
  match out.getLast? with
  | some l => !(pyStrip l == "")
  | none => false

/-- One iteration of the first-pass line loop (main.py lines 46–109). -/
def mdProcessLine (st : MdState) (line : String) : MdState :=
  let stripped := pyStrip line
  match matchBulletLine stripped with
  | some g1 =>
    let st :=
      if !st.in_list || st.list_type ≠ some .bullet then
        let st :=
          if lastNonblank st.out
              && !(strStartsWith (st.out.getLast?.getD "") "-") then
            { st with out := st.out ++ [""] }
          else st
        { st with in_list := true, list_type := some .bullet, counter := 1 }
      else st
    { st with out := st.out ++ ["- " ++ g1] }
  | none =>
  match matchNumberedLine stripped with
  | some (n, g2) =>
    let st :=
      if !st.in_list || st.list_type ≠ some .numbered then
        let st :=
          if lastNonblank st.out
              && !numListPrefix (pyStrip (st.out.getLast?.getD "")) then
            { st with out := st.out ++ [""] }
          else st
        { st with in_list := true, list_type := some .numbered, counter := n }
      else st
    { st with out := st.out ++ [toString st.counter ++ ". " ++ g2],
              counter := st.counter + 1 }
  | none =>
    -- regular line (lines 80–109)
    let st :=
      if st.in_list && stripped ≠ "" then
        let leading := (line.data.takeWhile isPyWs).length
        if leading < 2 then
          let st := { st with in_list := false, list_type := none, counter := 1 }
          if lastNonblank st.out then { st with out := st.out ++ [""] } else st
        else st
      else st
    if stripped = "" then
      if lastNonblank st.out then { st with out := st.out ++ [""] } else st
    else
      -- the three preserve branches (code-fence marker, indented line,
      -- plain line) all append the original line
      if strStartsWith stripped "```" then { st with out := st.out ++ [line] }
      else if strStartsWith line "    " || strStartsWith line "\t" then
        { st with out := st.out ++ [line] }
      else { st with out := st.out ++ [line] }

def tripleTick : List Char := "```".data

/-- First occurrence of ` ``` ` in the input:
`(everything up to and including it, rest)`. -/
def findCloseTicks : List Char → Option (List Char × List Char)
  | [] => none
  | c :: t =>
    if tripleTick.isPrefixOf (c :: t) then some (tripleTick, (c :: t).drop 3)
    else
      match findCloseTicks t with
      | some (inner, rest) => some (c :: inner, rest)
      | none => none

/-- A match of the code-block pattern ` ```[^\n]*\n.*?``` ` (DOTALL)
anchored at the head: `(match, rest)`.  `[^\n]*` must stop exactly
before the first newline, and the non-greedy `.*?` ends at the first
following ` ``` `. -/
def tryCodeBlockAt (cs : List Char) : Option (List Char × List Char) :=
  if tripleTick.isPrefixOf cs then
    let afterTicks := cs.drop 3
    let info := afterTicks.takeWhile (fun c => !(c == '\n'))
    match afterTicks.drop info.length with
    | c :: body =>
      if c = '\n' then
        match findCloseTicks body with
        | some (inner, rest) =>
          some (tripleTick ++ info ++ '\n' :: inner, rest)
        | none => none
      else none
    | [] => none
  else none

/-- `re.split(r'(```[^\n]*\n.*?```)', s, flags=re.DOTALL)`: with the
capture group, the matched blocks appear in the output list, and the
(possibly empty) unmatched segments alternate with them. -/
def splitCodeBlocksAux : Nat → List Char → List Char → List String
  | 0, acc, cs => [String.mk (acc.reverse ++ cs)]
  | _ + 1, acc, [] => [String.mk acc.reverse]
  | fuel + 1, acc, c :: t =>
    match tryCodeBlockAt (c :: t) with
    | some (m, rest) =>
      String.mk acc.reverse :: String.mk m :: splitCodeBlocksAux fuel [] rest
    | none => splitCodeBlocksAux fuel (c :: acc) t

def splitCodeBlocks (s : String) : List String :=
  splitCodeBlocksAux s.data.length [] s.data

/-- Backtracking over the length of the greedy `\s+` in the header
pattern, longest first (`kk = k + 1` whitespace characters). -/
def headerTryK (hashes rest1 : List Char) : Nat → Option (List Char × Char × List Char)
  | 0 => none
  | k + 1 =>
    let wsPart := rest1.take (k + 1)
    let rem := rest1.drop (k + 1)
    match rem with
    | [] => headerTryK hashes rest1 k
    | c0 :: _ =>
      if c0 = '\n' then headerTryK hashes rest1 k
      else
        let line := rem.takeWhile (fun c => !(c == '\n'))
        match rem.drop line.length with
        | '\n' :: g2 :: r2 =>
          if g2 ≠ '\n' && g2 ≠ '#' && !isPyWs g2 then
            some (hashes ++ wsPart ++ line, g2, r2)
          else headerTryK hashes rest1 k
        | _ => headerTryK hashes rest1 k

/-- A match of `\n(#{1,6}\s+.+)\n([^\n#\s])` anchored at the head:
`(group 1, group 2, rest)`.  The `#` run must have length 1–6 (a longer
run cannot match, the leftover `#` failing `\s+`), and `.+` runs to the
end of its line. -/
def matchHeaderAt (cs : List Char) : Option (List Char × Char × List Char) :=
  match cs with
  | '\n' :: r =>
    let hashes := r.takeWhile (fun c => c == '#')
    if hashes.length ≥ 1 && hashes.length ≤ 6 then
      let rest1 := r.drop hashes.length
      let wsRun := (rest1.takeWhile isPyWs).length
      headerTryK hashes rest1 wsRun
    else none
  | _ => none

/-- `re.sub(r'\n(#{1,6}\s+.+)\n([^\n#\s])', r'\n\1\n\n\2', ·)`. -/
def headerFixAux : Nat → List Char → List Char
  | 0, cs => cs
  | _ + 1, [] => []
  | fuel + 1, c :: t =>
    match matchHeaderAt (c :: t) with
    | some (g1, g2, rest) =>
      '\n' :: g1 ++ '\n' :: '\n' :: g2 :: headerFixAux fuel rest
    | none => c :: headerFixAux fuel t

def headerFix (s : String) : String := ⟨headerFixAux s.data.length s.data⟩

/-- Pass 2 (main.py lines 117–127): split on fenced code blocks, fix
header spacing only in the parts that do not start with ` ``` `. -/
def mdPass2 (s : String) : String :=
  String.join ((splitCodeBlocks s).map
    (fun part => if strStartsWith part "```" then part else headerFix part))

/-- Pass 3 (line 131): `re.sub(r'\n{4,}', '\n\n\n', ·)`. -/
def collapseNl : Nat → List Char → List Char
  | 0, cs => cs
  | _ + 1, [] => []
  | fuel + 1, c :: t =>
    if c = '\n' then
      let run := (c :: t).takeWhile (fun x => x == '\n')
      let rest := (c :: t).drop run.length
      (if run.length ≥ 4 then ['\n', '\n', '\n'] else run) ++ collapseNl fuel rest
    else c :: collapseNl fuel t

/-- A match of `([^\n])\n([-*]|\d+[.)])` anchored at the head:
`(group 1, group 2, rest)`. -/
def matchListSpacingAt (cs : List Char) : Option (Char × List Char × List Char) :=
  match cs with
  | a :: nl :: rest =>
    if a = '\n' then none
    else if nl = '\n' then
      match rest with
      | b :: r2 =>
        if b = '-' || b = '*' then some (a, [b], r2)
        else
          let ds := rest.takeWhile Char.isDigit
          if !ds.isEmpty then
            match rest.drop ds.length with
            | br :: r3 =>
              if br = '.' || br = ')' then some (a, ds ++ [br], r3) else none
            | [] => none
          else none
      | [] => none
    else none
  | _ => none

/-- Pass 4 (line 135):
`re.sub(r'([^\n])\n([-*]|\d+[.)])', r'\1\n\n\2', ·)`. -/
def listSpacingAux : Nat → List Char → List Char
  | 0, cs => cs
  | _ + 1, [] => []
  | fuel + 1, c :: t =>
    match matchListSpacingAt (c :: t) with
    | some (a, g2, rest) => a :: '\n' :: '\n' :: g2 ++ listSpacingAux fuel rest
    | none => c :: listSpacingAux fuel t

def format_markdown_response (content : String) : String :=
  if content = "" then content
  else
    let lines := pySplitLines content
    let st := lines.foldl mdProcessLine ⟨false, none, 1, []⟩
    let s1 := pyJoinLines st.out
    let s2 := mdPass2 s1
    let s3 : String := ⟨collapseNl s2.data.length s2.data⟩
    ⟨listSpacingAux s3.data.length s3.data⟩

/-! ## Statement helpers

Measures and input shapes used by the theorem statements below (not
part of the source embedding). -/

/-- The length of the longest parsed ranking among the Stage 2 results:
the bound that the aggregate positions actually satisfy. -/
def maxParsedLen (stage2_results : List Stage2R) : Nat :=
  (stage2_results.map
    (fun r => (parse_ranking_from_text r.ranking).length)).foldr max 0

/-- A fenced code block: a bare ` ``` ` open-fence line, the interior
lines, and a closing ` ``` ` line. -/
def fencedBlock (interior : List String) : String :=
  "```\n" ++ interior.foldr (fun l acc => l ++ "\n" ++ acc) "```"

/-- No newline is followed by a character that could begin the second
group of the list-spacing pattern (`-`, `*` or a digit). -/
def noListAfterNl : List Char → Bool
  | [] => true
  | [_] => true
  | a :: b :: t =>
    (if a = '\n' then !(b = '-' || b = '*' || b.isDigit) else true)
      && noListAfterNl (b :: t)

/-! # Theorems -/

/-- C8: when the chairman query returns no reply, the engine returns a
synthesis whose content is exactly
`"Error: Unable to generate final synthesis."` and whose model id is the
chairman model id (and no metadata fields). -/
theorem c8_chairman_failure_synthesis (chairman_model user_query : String)
    (stage1_results : List Stage1R) (stage2_results : List Stage2R) :
    stage3_synthesize_final chairman_model user_query stage1_results
        stage2_results none
      = { model := chairman_model,
          response := "Error: Unable to generate final synthesis.",
          primary_source := none, top_ranked_model := none,
          confidence := none } := rfl

/-- C9: whenever the chairman query returns a reply, the synthesis
confidence is defined and at least 30 — `max(30, base - penalties)`
clamps from below even when the chairman self-reports less than 30. -/
theorem c9_confidence_floor_thirty (chairman_model user_query : String)
    (stage1_results : List Stage1R) (stage2_results : List Stage2R)
    (r : Reply) :
    ∃ c, (stage3_synthesize_final chairman_model user_query stage1_results
            stage2_results (some r)).confidence = some c ∧ 30 ≤ c :=
  ⟨_, rfl, le_max_left _ _⟩

/-- C1 (code bug): `update_config` acquires the non-reentrant
`_config_lock` and then calls `get_config`, which acquires the same
lock; the coroutine therefore never completes, for every starting
state and every update — it never returns a snapshot, so no subsequent
`get_config` can observe the update through it. -/
theorem c1_update_config_never_returns (cm : Option (List String))
    (ch : Option String) (s : ConfigState) :
    update_config cm ch s = none := by
  rcases s with ⟨env, file, cache, locked⟩
  cases locked <;> rfl

/-- C4 counterexample: a successful call whose content is the empty
string is *included* in the Stage 1 results, not dropped — refuting the
claim that inclusion requires non-empty content. -/
theorem c4_empty_content_success_is_kept :
    stage1_collect_responses [("m1", some (Reply.mk ""))]
      = [Stage1R.mk "m1" ""] := rfl

/-- C4 amended: a council member's reply is included in the Stage 1
results exactly when the call succeeded (returned a response object),
regardless of whether the content is empty. -/
theorem c4_stage1_inclusion_iff_success
    (responses : List (String × Option Reply)) (m c : String) :
    Stage1R.mk m c ∈ stage1_collect_responses responses
      ↔ (m, some (Reply.mk c)) ∈ responses := by
  unfold stage1_collect_responses
  rw [List.mem_filterMap]
  constructor
  · rintro ⟨⟨m', r'⟩, hmem, hf⟩
    cases r' with
    | none => simp at hf
    | some resp =>
      simp only [Option.map_some', Option.some_inj] at hf
      cases resp
      cases hf
      exact hmem
  · intro hmem
    exact ⟨(m, some (Reply.mk c)), hmem, rfl⟩

/-- C6 counterexample: two message arrays whose first user message both
have content `""` get *different* conversation ids — the falsy check
`if not first_user_message` sends the empty string to the
whole-array-serialization fallback, refuting the claim for the empty
string. -/
theorem c6_empty_first_user_message_ids_differ :
    firstUserMessage [Msg.mk "user" ""] = some ""
    ∧ firstUserMessage [Msg.mk "user" "", Msg.mk "user" "y"] = some ""
    ∧ generate_conversation_id [Msg.mk "user" ""]
        ≠ generate_conversation_id [Msg.mk "user" "", Msg.mk "user" "y"] := by
  refine ⟨rfl, rfl, ?_⟩
  decide

/-- C6 amended: for every two message arrays whose first user message
has the same *non-empty* content, the derived conversation ids agree
(when the content is empty or absent, the id falls back to the UUID of
the whole serialized array instead). -/
theorem c6_same_first_user_message_same_id (ms1 ms2 : List Msg)
    (c : String) (hc : c ≠ "")
    (h1 : firstUserMessage ms1 = some c)
    (h2 : firstUserMessage ms2 = some c) :
    generate_conversation_id ms1 = generate_conversation_id ms2 := by
  unfold generate_conversation_id
  rw [h1, h2]
  simp [hc]

/-- Witness for C6 amended at concrete inputs. -/
theorem c6_same_first_user_message_same_id_witness :
    generate_conversation_id [Msg.mk "user" "hi"]
      = generate_conversation_id [Msg.mk "system" "ctx", Msg.mk "user" "hi"] :=
  c6_same_first_user_message_same_id _ _ "hi" (by decide) rfl rfl

/-- C10: with the backend's model list in hand, a requested id validates
as available exactly when it is in the list or some available name
starts with the requested id's portion before the first `:`; hence
(second conjunct) `llama3:70b` validates as available when only
`llama3:8b` is installed. -/
theorem c10_validate_iff_prefix_match :
    (∀ (available : List String) (m : String),
        validate_model available m = true
          ↔ (m ∈ available
             ∨ ∃ a ∈ available, strStartsWith a (beforeColon m) = true))
    ∧ (validate_model ["llama3:8b"] "llama3:70b" = true
       ∧ "llama3:70b" ∉ (["llama3:8b"] : List String)) := by
  refine ⟨fun available m => ?_, by decide, by decide⟩
  simp [validate_model, List.any_eq_true, List.elem_iff]

/-- The confidence field of a successful Stage 3 run, written out. -/
theorem stage3_success_confidence (ch uq : String) (s1 : List Stage1R)
    (s2 : List Stage2R) (r : Reply) :
    (stage3_synthesize_final ch uq s1 s2 (some r)).confidence
      = some (max 30
          (stage3_base_confidence (parseChairmanConfidence r.content)
              (calculate_aggregate_rankings s2 (stage1Labels s1))
            - stage3_penalties r.content uq s1
                ((calculate_aggregate_rankings s2 (stage1Labels s1)).head?.map
                  (·.model)))) := rfl

/-- The base confidence stays at most 100 as long as the chairman does
not self-report a value above 100 (the consensus fallback is at most
90). -/
theorem stage3_base_confidence_le_100 (cc : Option Nat)
    (agg : List AggEntry) (h : ∀ c0, cc = some c0 → c0 ≤ 100) :
    stage3_base_confidence cc agg ≤ 100 := by
  cases cc with
  | some c =>
    have hc := h c rfl
    show stage3_base_confidence (some c) agg ≤ 100
    simp only [stage3_base_confidence]
    exact_mod_cast hc
  | none =>
    cases agg with
    | nil => simp [stage3_base_confidence]
    | cons a t =>
      cases t with
      | nil => simp [stage3_base_confidence]
      | cons b t' =>
        simp only [stage3_base_confidence]
        have :
            min (90 : ℤ)
              (max 60 (70 + pyTrunc ((b.average_rank - a.average_rank) * 10)))
              ≤ 90 := min_le_left _ _
        omega

/-- Every penalty contribution is non-negative. -/
theorem stage3_penalties_nonneg (content uq : String) (s1 : List Stage1R)
    (top : Option String) : 0 ≤ stage3_penalties content uq s1 top := by
  unfold stage3_penalties
  dsimp only
  refine add_nonneg (add_nonneg (add_nonneg (add_nonneg
    (add_nonneg ?_ ?_) ?_) ?_) ?_) ?_ <;> (repeat' split) <;> omega

/-- C3 counterexample: a chairman reply `# Confidence: 150%` passes
through unclamped — the synthesis confidence is 150, outside `[0,100]`. -/
theorem c3_overreported_confidence_unclamped :
    (stage3_synthesize_final "chair" "q" [] []
        (some (Reply.mk "x\n# Confidence: 150%"))).confidence = some 150
    ∧ ¬ ((150 : ℤ) ≤ 100) := by
  exact ⟨by decide, by decide⟩

/-- C3 amended: when the chairman replies, the synthesis confidence `c`
satisfies `30 ≤ c`, and `c ≤ 100` whenever the chairman does not
self-report a confidence above 100 (in particular when it reports none
and the consensus fallback applies). -/
theorem c3_confidence_in_range (ch uq : String) (s1 : List Stage1R)
    (s2 : List Stage2R) (r : Reply)
    (h : ∀ c0, parseChairmanConfidence r.content = some c0 → c0 ≤ 100) :
    ∃ c, (stage3_synthesize_final ch uq s1 s2 (some r)).confidence = some c
      ∧ 30 ≤ c ∧ c ≤ 100 := by
  refine ⟨_, rfl, le_max_left _ _, ?_⟩
  refine max_le (by norm_num) ?_
  have hb := stage3_base_confidence_le_100 (parseChairmanConfidence r.content)
    (calculate_aggregate_rankings s2 (stage1Labels s1)) h
  have hp := stage3_penalties_nonneg r.content uq s1
    ((calculate_aggregate_rankings s2 (stage1Labels s1)).head?.map (·.model))
  exact (sub_le_self _ hp).trans hb

/-- Witness for C3 amended at a concrete reply with no self-report. -/
theorem c3_confidence_in_range_witness :
    ∃ c, (stage3_synthesize_final "chair" "q" [] []
            (some (Reply.mk "plain answer"))).confidence = some c
      ∧ 30 ≤ c ∧ c ≤ 100 := by
  apply c3_confidence_in_range
  intro c0 hc
  rw [show parseChairmanConfidence "plain answer" = none by decide] at hc
  cases hc

/-- C2 (code bug): sending the same single-user-message non-streaming
request twice (storage enabled, engine succeeding) leaves one
conversation with *seven* messages in the order
user, user, assistant, assistant, user, assistant, assistant — the
creation path stores the first user message twice (seed plus append),
and the non-streaming path stores the assistant message twice
(the pre-streaming save at main.py line 718 and the non-streaming save
at line 842) — not four messages (u, a, u, a) as claimed. -/
theorem c2_two_requests_store_seven_messages :
    (chat_completions_store true [Msg.mk "user" "What does 2+2 equal?"]
        false false (EngineResult.mk "chair" "4")
        "4\n\n*Model: chair* | *Response time: 0.10s* | *Confidence: 80%*"
        (chat_completions_store true [Msg.mk "user" "What does 2+2 equal?"]
          false false (EngineResult.mk "chair" "4")
          "4\n\n*Model: chair* | *Response time: 0.10s* | *Confidence: 80%*"
          [])).map (fun e => e.2.messages.map (fun m => m.role))
      = [["user", "user", "assistant", "assistant",
          "user", "assistant", "assistant"]] := by decide

/-! ### C5: bounds on the aggregate ranks -/

theorem mem_insertByRank (x a : AggEntry) (l : List AggEntry) :
    a ∈ insertByRank x l ↔ a = x ∨ a ∈ l := by
  induction l with
  | nil => simp [insertByRank]
  | cons y ys ih =>
    simp only [insertByRank]
    split
    · simp only [List.mem_cons, ih]
      try tauto
    · simp only [List.mem_cons]
      try tauto

theorem mem_sortByRank (a : AggEntry) (l : List AggEntry) :
    a ∈ sortByRank l ↔ a ∈ l := by
  suffices h : ∀ acc : List AggEntry,
      a ∈ l.foldl (fun acc x => insertByRank x acc) acc ↔ a ∈ acc ∨ a ∈ l by
    simpa [sortByRank] using h []
  induction l with
  | nil => intro acc; simp
  | cons x xs ih =>
    intro acc
    simp only [List.foldl_cons, ih (insertByRank x acc), mem_insertByRank,
      List.mem_cons]
    tauto

theorem addPos_posOK (name : String) (pos M : Nat)
    (acc : List (String × List Nat))
    (hacc : ∀ pr ∈ acc, ∀ p ∈ pr.2, 1 ≤ p ∧ p ≤ M)
    (h1 : 1 ≤ pos) (h2 : pos ≤ M) :
    ∀ pr ∈ addPos name pos acc, ∀ p ∈ pr.2, 1 ≤ p ∧ p ≤ M := by
  induction acc with
  | nil =>
    intro pr hpr p hp
    simp only [addPos, List.mem_singleton] at hpr
    subst hpr
    simp only [List.mem_singleton] at hp
    subst hp
    exact ⟨h1, h2⟩
  | cons e rest ih =>
    intro pr hpr p hp
    obtain ⟨n, ps⟩ := e
    simp only [addPos] at hpr
    split at hpr
    · rcases List.mem_cons.mp hpr with h | h
      · subst h
        simp only at hp
        rcases List.mem_append.mp hp with h' | h'
        · exact hacc (n, ps) (List.mem_cons_self _ _) p h'
        · simp only [List.mem_singleton] at h'
          subst h'
          exact ⟨h1, h2⟩
      · exact hacc pr (List.mem_cons_of_mem _ h) p hp
    · rcases List.mem_cons.mp hpr with h | h
      · subst h
        exact hacc (n, ps) (List.mem_cons_self _ _) p hp
      · exact ih (fun q hq => hacc q (List.mem_cons_of_mem _ hq)) pr h p hp

theorem addParsed_posOK (ltm : List (String × String))
    (parsed : List String) (acc : List (String × List Nat)) (pos M : Nat)
    (hacc : ∀ pr ∈ acc, ∀ p ∈ pr.2, 1 ≤ p ∧ p ≤ M)
    (h1 : 1 ≤ pos) (h2 : pos + parsed.length ≤ M + 1) :
    ∀ pr ∈ addParsed ltm acc parsed pos, ∀ p ∈ pr.2, 1 ≤ p ∧ p ≤ M := by
  induction parsed generalizing acc pos with
  | nil => simpa [addParsed] using hacc
  | cons label rest ih =>
    simp only [List.length_cons] at h2
    simp only [addParsed]
    cases hl : ltm.lookup label with
    | some name =>
      apply ih
      · exact addPos_posOK name pos M acc hacc h1 (by omega)
      · omega
      · omega
    | none =>
      apply ih
      · exact hacc
      · omega
      · omega

theorem parseLen_le_maxParsedLen (r : Stage2R) (s2 : List Stage2R)
    (hr : r ∈ s2) :
    (parse_ranking_from_text r.ranking).length ≤ maxParsedLen s2 := by
  induction s2 with
  | nil => cases hr
  | cons x xs ih =>
    have hunfold : maxParsedLen (x :: xs)
        = max (parse_ranking_from_text x.ranking).length (maxParsedLen xs) := by
      simp [maxParsedLen]
    rw [hunfold]
    rcases List.mem_cons.mp hr with h | h
    · subst h
      exact le_max_left _ _
    · exact (ih h).trans (le_max_right _ _)

theorem collectPositions_posOK (s2 : List Stage2R)
    (ltm : List (String × String)) :
    ∀ pr ∈ collectPositions s2 ltm, ∀ p ∈ pr.2,
      1 ≤ p ∧ p ≤ maxParsedLen s2 := by
  have key : ∀ (l : List Stage2R) (acc : List (String × List Nat)) (M : Nat),
      (∀ pr ∈ acc, ∀ p ∈ pr.2, 1 ≤ p ∧ p ≤ M) →
      (∀ r ∈ l, (parse_ranking_from_text r.ranking).length ≤ M) →
      ∀ pr ∈ l.foldl
          (fun acc r => addParsed ltm acc (parse_ranking_from_text r.ranking) 1)
          acc,
        ∀ p ∈ pr.2, 1 ≤ p ∧ p ≤ M := by
    intro l
    induction l with
    | nil => intro acc M hacc _ pr hpr; exact hacc pr hpr
    | cons r rs ih =>
      intro acc M hacc hlen pr hpr
      refine ih _ M
        (addParsed_posOK ltm (parse_ranking_from_text r.ranking) acc 1 M hacc
          le_rfl (by have := hlen r (List.mem_cons_self _ _); omega))
        (fun q hq => hlen q (List.mem_cons_of_mem _ hq)) pr hpr
  exact key s2 [] (maxParsedLen s2) (by simp)
    (fun r hr => parseLen_le_maxParsedLen r s2 hr)

theorem roundHalfEven_bounds (x : ℚ) (m n : ℤ)
    (hm : (m : ℚ) ≤ x) (hn : x ≤ (n : ℚ)) :
    m ≤ roundHalfEven x ∧ roundHalfEven x ≤ n := by
  have hfl : m ≤ ⌊x⌋ := Int.le_floor.mpr hm
  have hfq : (⌊x⌋ : ℚ) ≤ x := Int.floor_le x
  have hfn : ⌊x⌋ ≤ n := by
    have h := Int.floor_le_floor hn
    simpa using h
  unfold roundHalfEven
  dsimp only
  split_ifs with h1 h2 h3
  · exact ⟨hfl, hfn⟩
  · refine ⟨by omega, ?_⟩
    have hx : (⌊x⌋ : ℚ) + 1 / 2 < x := by linarith
    have hq : (⌊x⌋ : ℚ) < (n : ℚ) := by linarith
    have : ⌊x⌋ < n := by exact_mod_cast hq
    omega
  · exact ⟨hfl, hfn⟩
  · refine ⟨by omega, ?_⟩
    have hx : (⌊x⌋ : ℚ) + 1 / 2 ≤ x := by linarith
    have hq : (⌊x⌋ : ℚ) < (n : ℚ) := by linarith
    have : ⌊x⌋ < n := by exact_mod_cast hq
    omega

theorem pyRound2_bounds (x : ℚ) (m n : ℤ)
    (hm : (m : ℚ) ≤ x) (hn : x ≤ (n : ℚ)) :
    (m : ℚ) ≤ pyRound2 x ∧ pyRound2 x ≤ (n : ℚ) := by
  have h := roundHalfEven_bounds (x * 100) (m * 100) (n * 100)
    (by push_cast; linarith) (by push_cast; linarith)
  unfold pyRound2
  constructor
  · rw [le_div_iff₀ (by norm_num : (0 : ℚ) < 100)]
    exact_mod_cast h.1
  · rw [div_le_iff₀ (by norm_num : (0 : ℚ) < 100)]
    exact_mod_cast h.2

/-- Elementwise lower bound on a sum of naturals. -/
theorem length_le_sum_of_one_le (l : List Nat) (h : ∀ p ∈ l, 1 ≤ p) :
    l.length ≤ l.sum := by
  induction l with
  | nil => simp
  | cons p ps ih =>
    have h1 := h p (List.mem_cons_self _ _)
    have h2 := ih (fun q hq => h q (List.mem_cons_of_mem _ hq))
    simp only [List.length_cons, List.sum_cons]
    omega

/-- Elementwise upper bound on a sum of naturals. -/
theorem sum_le_length_mul (l : List Nat) (M : Nat) (h : ∀ p ∈ l, p ≤ M) :
    l.sum ≤ l.length * M := by
  induction l with
  | nil => simp
  | cons p ps ih =>
    have h1 := h p (List.mem_cons_self _ _)
    have h2 := ih (fun q hq => h q (List.mem_cons_of_mem _ hq))
    simp only [List.sum_cons, List.length_cons]
    calc p + ps.sum ≤ M + ps.length * M := by omega
      _ = (ps.length + 1) * M := by ring

/-- C5 amended: every `average_rank` in the aggregate output lies in
`[1, L]` where `L` is the length of the longest parsed ranking — it can
exceed `|Stage1Successes|` when a Stage 2 ranking repeats a label or
lists unknown labels before known ones. -/
theorem c5_aggregate_rank_bounds (s2 : List Stage2R)
    (ltm : List (String × String)) (e : AggEntry)
    (he : e ∈ calculate_aggregate_rankings s2 ltm) :
    1 ≤ e.average_rank ∧ e.average_rank ≤ (maxParsedLen s2 : ℚ) := by
  unfold calculate_aggregate_rankings at he
  rw [mem_sortByRank, List.mem_filterMap] at he
  obtain ⟨pr, hpr, hmk⟩ := he
  rcases hemp : pr.2.isEmpty with _ | _
  · rw [hemp] at hmk
    simp only [if_neg Bool.false_ne_true, Option.some_inj] at hmk
    subst hmk
    have hps := collectPositions_posOK s2 ltm pr hpr
    have hne : pr.2 ≠ [] := by
      intro hnil
      rw [hnil] at hemp
      simp at hemp
    have hlen : 0 < pr.2.length := List.length_pos.mpr hne
    have hlow : pr.2.length ≤ pr.2.sum :=
      length_le_sum_of_one_le pr.2 (fun p hp => (hps p hp).1)
    have hup : pr.2.sum ≤ pr.2.length * maxParsedLen s2 :=
      sum_le_length_mul pr.2 (maxParsedLen s2) (fun p hp => (hps p hp).2)
    have hlenq : (0 : ℚ) < (pr.2.length : ℚ) := by exact_mod_cast hlen
    have hmean_low : (1 : ℚ) ≤ (pr.2.sum : ℚ) / (pr.2.length : ℚ) := by
      rw [le_div_iff₀ hlenq, one_mul]
      exact_mod_cast hlow
    have hmean_up :
        (pr.2.sum : ℚ) / (pr.2.length : ℚ) ≤ (maxParsedLen s2 : ℚ) := by
      rw [div_le_iff₀ hlenq]
      have h' : pr.2.sum ≤ maxParsedLen s2 * pr.2.length := by
        rw [Nat.mul_comm]
        exact hup
      exact_mod_cast h'
    have hb := pyRound2_bounds ((pr.2.sum : ℚ) / (pr.2.length : ℚ))
      1 (maxParsedLen s2 : ℤ) (by exact_mod_cast hmean_low)
      (by exact_mod_cast hmean_up)
    constructor
    · exact_mod_cast hb.1
    · exact_mod_cast hb.2
  · rw [hemp] at hmk
    simp at hmk

/-- C5 counterexample: with one Stage 1 success (`label_to_model` has a
single entry, so `n = 1`), a Stage 2 text that lists `Response A` twice
yields `average_rank = 3/2 > n` — positions are counted over the whole
parsed list, duplicates included. -/
theorem c5_rank_exceeds_stage1_successes :
    (calculate_aggregate_rankings
        [Stage2R.mk "judge" "FINAL RANKING:\n1. Response A\n2. Response A" []]
        [("Response A", "m1")]).map
        (fun e => (e.model, e.average_rank, e.rankings_count))
      = [("m1", (3 : ℚ)/2, 2)]
    ∧ ([("Response A", "m1")] : List (String × String)).length = 1
    ∧ ¬ ((3 : ℚ)/2 ≤ 1) := by
  refine ⟨?_, rfl, by norm_num⟩
  have h1 : collectPositions
      [Stage2R.mk "judge" "FINAL RANKING:\n1. Response A\n2. Response A" []]
      [("Response A", "m1")] = [("m1", [1, 2])] := by decide
  unfold calculate_aggregate_rankings
  rw [h1]
  norm_num [List.filterMap_cons, sortByRank, insertByRank, pyRound2,
    roundHalfEven]
  simp [sortByRank, insertByRank]

/-- Witness for C5 amended: a single clean ranking over one success
gives the aggregate entry `("m1", 1, 1)`, whose rank satisfies the
bounds. -/
theorem c5_aggregate_rank_bounds_witness :
    1 ≤ (AggEntry.mk "m1" 1 1).average_rank
    ∧ (AggEntry.mk "m1" 1 1).average_rank
        ≤ (maxParsedLen [Stage2R.mk "j" "FINAL RANKING:\n1. Response A" []] : ℚ) := by
  apply c5_aggregate_rank_bounds _ [("Response A", "m1")]
  have h1 : collectPositions [Stage2R.mk "j" "FINAL RANKING:\n1. Response A" []]
      [("Response A", "m1")] = [("m1", [1])] := by decide
  unfold calculate_aggregate_rankings
  rw [h1]
  norm_num [List.filterMap_cons, sortByRank, insertByRank, pyRound2,
    roundHalfEven]

/-! ### C7: the markdown normalizer and fenced code blocks -/

/-- C7 counterexample: the fenced interior line `* 2` is rewritten to a
normalized bullet (with blank lines inserted inside the fence); the
interior text `* 2` does not even occur in the output. -/
theorem c7_fence_interior_rewritten :
    format_markdown_response "```\n* 2\n```" = "```\n\n- 2\n\n```"
    ∧ strIn "* 2" "```\n\n- 2\n\n```" = false :=
  ⟨by decide, by decide⟩

theorem stringMk_data (s : String) : String.mk s.data = s := rfl

theorem contains_false_head (c : Char) (t : List Char) (a : Char)
    (h : (c :: t).contains a = false) : c ≠ a ∧ t.contains a = false := by
  rw [List.contains_cons, Bool.or_eq_false_iff] at h
  exact ⟨(beq_eq_false_iff_ne.mp h.1).symm, h.2⟩

theorem splitNl_no_nl (X : List Char) (hX : X.contains '\n' = false) :
    splitNl X = [X] := by
  induction X with
  | nil => rfl
  | cons c t ih =>
    obtain ⟨hc, ht⟩ := contains_false_head c t '\n' hX
    simp [splitNl, hc, ih ht]

theorem splitNl_append (X Y : List Char) (hX : X.contains '\n' = false) :
    splitNl (X ++ '\n' :: Y) = X :: splitNl Y := by
  induction X with
  | nil => simp [splitNl]
  | cons c t ih =>
    obtain ⟨hc, ht⟩ := contains_false_head c t '\n' hX
    simp [splitNl, hc, ih ht]

theorem foldr_lines_data (interior : List String) :
    (interior.foldr (fun l acc => l ++ "\n" ++ acc) "```").data
      = interior.foldr (fun l acc => l.data ++ '\n' :: acc) "```".data := by
  induction interior with
  | nil => rfl
  | cons l ls ih => simp [String.data_append, ih]

theorem fencedBlock_data (interior : List String) :
    (fencedBlock interior).data
      = "```".data ++ '\n' ::
          interior.foldr (fun l acc => l.data ++ '\n' :: acc) "```".data := by
  show ("```\n" ++ _).data = _
  rw [String.data_append, foldr_lines_data]
  rfl

theorem splitNl_fold (ls : List String)
    (h : ∀ l ∈ ls, l.data.contains '\n' = false) :
    splitNl (ls.foldr (fun l acc => l.data ++ '\n' :: acc) "```".data)
      = ls.map (·.data) ++ ["```".data] := by
  induction ls with
  | nil => exact splitNl_no_nl _ (by decide)
  | cons l t ih =>
    simp only [List.foldr_cons]
    rw [splitNl_append _ _ (h l (List.mem_cons_self _ _))]
    rw [ih (fun q hq => h q (List.mem_cons_of_mem _ hq))]
    simp

theorem pySplitLines_fenced (interior : List String)
    (h : ∀ l ∈ interior, l.data.contains '\n' = false) :
    pySplitLines (fencedBlock interior) = "```" :: interior ++ ["```"] := by
  unfold pySplitLines
  rw [fencedBlock_data, splitNl_append _ _ (by decide), splitNl_fold interior h]
  simp [stringMk_data, Function.comp_def]

theorem mdProcessLine_preserved (st : MdState) (l : String)
    (hin : st.in_list = false)
    (hs : ¬(pyStrip l = ""))
    (hb : matchBulletLine (pyStrip l) = none)
    (hn : matchNumberedLine (pyStrip l) = none) :
    mdProcessLine st l = { st with out := st.out ++ [l] } := by
  unfold mdProcessLine
  dsimp only
  simp only [hb, hn, hin, Bool.false_and, Bool.false_eq_true, if_false, hs,
    ite_false]
  split <;> first
  | rfl
  | (split <;> rfl)

theorem pass1_preserved (lines : List String)
    (h : ∀ l ∈ lines, ¬(pyStrip l = "")
        ∧ matchBulletLine (pyStrip l) = none
        ∧ matchNumberedLine (pyStrip l) = none) :
    ∀ st : MdState, st.in_list = false →
      lines.foldl mdProcessLine st = { st with out := st.out ++ lines } := by
  induction lines with
  | nil => intro st _; simp
  | cons l ls ih =>
    intro st hst
    obtain ⟨h1, h2, h3⟩ := h l (List.mem_cons_self _ _)
    rw [List.foldl_cons, mdProcessLine_preserved st l hst h1 h2 h3]
    rw [ih (fun q hq => h q (List.mem_cons_of_mem _ hq))
      { st with out := st.out ++ [l] } hst]
    simp

theorem pyJoinLines_cons (l : String) (ls : List String) (h : ls ≠ []) :
    pyJoinLines (l :: ls) = l ++ "\n" ++ pyJoinLines ls := by
  cases ls with
  | nil => exact absurd rfl h
  | cons x t => rfl

theorem pyJoinLines_fenced (interior : List String) :
    pyJoinLines ("```" :: interior ++ ["```"]) = fencedBlock interior := by
  have key : ∀ ls : List String,
      pyJoinLines (ls ++ ["```"])
        = ls.foldr (fun l acc => l ++ "\n" ++ acc) "```" := by
    intro ls
    induction ls with
    | nil => rfl
    | cons l t ih =>
      rw [List.cons_append, pyJoinLines_cons l (t ++ ["```"]) (by simp), ih]
      rw [List.foldr_cons]
  rw [List.cons_append]
  rw [pyJoinLines_cons "```" (interior ++ ["```"]) (by simp), key interior]
  apply String.ext
  simp [fencedBlock, String.data_append]

theorem foldr_append_tail (interior : List String) (tail : List Char) :
    interior.foldr (fun l acc => l.data ++ '\n' :: acc) tail
      = interior.foldr (fun l acc => l.data ++ '\n' :: acc) [] ++ tail := by
  induction interior with
  | nil => simp
  | cons l t ih => simp [ih]

theorem contains_append_false (X Y : List Char) (a : Char)
    (hX : X.contains a = false) (hY : Y.contains a = false) :
    (X ++ Y).contains a = false := by
  induction X with
  | nil => simpa using hY
  | cons c t ih =>
    obtain ⟨hc, ht⟩ := contains_false_head c t a hX
    rw [List.cons_append, List.contains_cons, Bool.or_eq_false_iff]
    exact ⟨beq_eq_false_iff_ne.mpr (fun hh => hc hh.symm), ih ht⟩

theorem interior_fold_no_tick (interior : List String)
    (h : ∀ l ∈ interior, l.data.contains '`' = false) :
    (interior.foldr (fun l acc => l.data ++ '\n' :: acc) []).contains '`'
      = false := by
  induction interior with
  | nil => rfl
  | cons l t ih =>
    simp only [List.foldr_cons]
    exact contains_append_false _ _ _ (h l (List.mem_cons_self _ _))
      (by
        rw [List.contains_cons, Bool.or_eq_false_iff]
        exact ⟨by decide, ih (fun q hq => h q (List.mem_cons_of_mem _ hq))⟩)

theorem tick_prefix_head (c : Char) (X : List Char)
    (h : tripleTick.isPrefixOf (c :: X) = true) : c = '`' := by
  rw [show tripleTick = ['`', '`', '`'] from rfl] at h
  simp only [List.isPrefixOf, Bool.and_eq_true, beq_iff_eq] at h
  exact h.1.symm

theorem findCloseTicks_at_end (cs rest : List Char)
    (h : cs.contains '`' = false) :
    findCloseTicks (cs ++ tripleTick ++ rest)
      = some (cs ++ tripleTick, rest) := by
  induction cs with
  | nil =>
    show findCloseTicks (tripleTick ++ rest) = some (tripleTick, rest)
    rw [show tripleTick ++ rest = '`' :: '`' :: '`' :: rest from rfl]
    have hpre : tripleTick.isPrefixOf ('`' :: '`' :: '`' :: rest) = true := by
      rw [show tripleTick = ['`', '`', '`'] from rfl]
      simp [List.isPrefixOf]
    simp [findCloseTicks, hpre]
  | cons c t ih =>
    obtain ⟨hc, ht⟩ := contains_false_head c t '`' h
    have hpre :
        tripleTick.isPrefixOf (c :: (t ++ tripleTick ++ rest)) = false := by
      cases hp : tripleTick.isPrefixOf (c :: (t ++ tripleTick ++ rest)) with
      | false => rfl
      | true => exact absurd (tick_prefix_head _ _ hp) hc
    rw [List.cons_append, List.cons_append]
    rw [findCloseTicks]
    rw [hpre]
    simp only [Bool.false_eq_true, if_false]
    rw [ih ht]

theorem tryCodeBlockAt_fenced (J : List Char) (hJ : J.contains '`' = false) :
    tryCodeBlockAt (tripleTick ++ '\n' :: (J ++ tripleTick))
      = some (tripleTick ++ '\n' :: (J ++ tripleTick), []) := by
  have hpre :
      tripleTick.isPrefixOf (tripleTick ++ '\n' :: (J ++ tripleTick)) = true := by
    rw [show tripleTick ++ '\n' :: (J ++ tripleTick)
        = '`' :: '`' :: '`' :: '\n' :: (J ++ tripleTick) from rfl]
    rw [show tripleTick = ['`', '`', '`'] from rfl]
    simp [List.isPrefixOf]
  have hclose : findCloseTicks (J ++ tripleTick) = some (J ++ tripleTick, []) := by
    have := findCloseTicks_at_end J [] hJ
    simpa using this
  have hTW : ('\n' :: (J ++ tripleTick)).takeWhile (fun c => !(c == '\n'))
      = [] := by
    simp [List.takeWhile_cons]
  unfold tryCodeBlockAt
  rw [if_pos hpre]
  dsimp only
  rw [show (tripleTick ++ '\n' :: (J ++ tripleTick)).drop 3
      = '\n' :: (J ++ tripleTick) from rfl]
  rw [hTW]
  simp only [List.length_nil, List.drop_zero]
  simp only [if_true]
  rw [hclose]
  simp

theorem splitCodeBlocksAux_nil_nil (f : Nat) :
    splitCodeBlocksAux f [] [] = [""] := by
  cases f <;> rfl

theorem splitCodeBlocks_fenced (interior : List String)
    (hbt : ∀ l ∈ interior, l.data.contains '`' = false) :
    splitCodeBlocks (fencedBlock interior)
      = ["", fencedBlock interior, ""] := by
  have hJ := interior_fold_no_tick interior hbt
  have hdata : (fencedBlock interior).data
      = tripleTick ++ '\n' ::
          (interior.foldr (fun l acc => l.data ++ '\n' :: acc) []
            ++ tripleTick) := by
    rw [fencedBlock_data, foldr_append_tail]
    rfl
  have htry := tryCodeBlockAt_fenced
    (interior.foldr (fun l acc => l.data ++ '\n' :: acc) []) hJ
  unfold splitCodeBlocks
  rw [hdata]
  rw [show tripleTick ++ '\n' ::
      (interior.foldr (fun l acc => l.data ++ '\n' :: acc) [] ++ tripleTick)
      = '`' :: ('`' :: '`' :: '\n' ::
        (interior.foldr (fun l acc => l.data ++ '\n' :: acc) []
          ++ tripleTick)) from rfl]
  rw [show ('`' :: ('`' :: '`' :: '\n' ::
      (interior.foldr (fun l acc => l.data ++ '\n' :: acc) []
        ++ tripleTick))).length
      = ((interior.foldr (fun l acc => l.data ++ '\n' :: acc) []
          ++ tripleTick).length + 3) + 1 by simp]
  rw [splitCodeBlocksAux]
  rw [show tryCodeBlockAt ('`' :: ('`' :: '`' :: '\n' ::
      (interior.foldr (fun l acc => l.data ++ '\n' :: acc) []
        ++ tripleTick)))
      = some ('`' :: ('`' :: '`' :: '\n' ::
          (interior.foldr (fun l acc => l.data ++ '\n' :: acc) []
            ++ tripleTick)), []) from htry]
  dsimp only
  rw [splitCodeBlocksAux_nil_nil]
  have hmk : String.mk ('`' :: ('`' :: '`' :: '\n' ::
      (interior.foldr (fun l acc => l.data ++ '\n' :: acc) []
        ++ tripleTick))) = fencedBlock interior := by
    apply String.ext
    show ('`' :: ('`' :: '`' :: '\n' ::
      (interior.foldr (fun l acc => l.data ++ '\n' :: acc) []
        ++ tripleTick))) = _
    rw [hdata]
    rfl
  rw [hmk]
  rfl

theorem isPrefixOf_self_append (l t : List Char) :
    l.isPrefixOf (l ++ t) = true := by
  induction l with
  | nil => simp [List.isPrefixOf]
  | cons c cs ih => simp [List.isPrefixOf, ih]

theorem mdPass2_fenced (interior : List String)
    (hbt : ∀ l ∈ interior, l.data.contains '`' = false) :
    mdPass2 (fencedBlock interior) = fencedBlock interior := by
  unfold mdPass2
  rw [splitCodeBlocks_fenced interior hbt]
  have h2 : strStartsWith (fencedBlock interior) "```" = true := by
    unfold strStartsWith
    rw [fencedBlock_data]
    exact isPrefixOf_self_append "```".data _
  simp only [List.map_cons, List.map_nil, h2, if_true]
  rw [show strStartsWith "" "```" = false from rfl]
  simp only [Bool.false_eq_true, if_false]
  rw [show headerFix "" = "" from rfl]
  apply String.ext
  simp [String.join, String.data_append]

theorem collapseNl_nil (f : Nat) : collapseNl f [] = [] := by
  cases f <;> rfl

theorem hasSub_cons_false (p : List Char) (c : Char) (t : List Char)
    (h : hasSub p (c :: t) = false) :
    p.isPrefixOf (c :: t) = false ∧ hasSub p t = false := by
  rw [hasSub, Bool.or_eq_false_iff] at h
  exact h

theorem collapseNl_id (fuel : Nat) (cs : List Char) (hf : cs.length ≤ fuel)
    (h : hasSub ['\n', '\n'] cs = false) : collapseNl fuel cs = cs := by
  induction fuel generalizing cs with
  | zero => rfl
  | succ f ih =>
    cases cs with
    | nil => rfl
    | cons c t =>
      obtain ⟨hpre, ht⟩ := hasSub_cons_false _ c t h
      simp only [List.length_cons, Nat.succ_le_succ_iff] at hf
      rw [collapseNl]
      by_cases hc : c = '\n'
      · subst hc
        rw [if_pos rfl]
        cases t with
        | nil =>
          rw [show (['\n'] : List Char).takeWhile (fun x => x == '\n')
              = ['\n'] from rfl]
          simp only [List.length_singleton]
          rw [if_neg (by omega)]
          rw [show (['\n'] : List Char).drop 1 = [] from rfl]
          rw [collapseNl_nil]
          rfl
        | cons c2 t2 =>
          have hc2 : c2 ≠ '\n' := by
            intro hh
            subst hh
            simp [List.isPrefixOf] at hpre
          have hrun : ('\n' :: c2 :: t2).takeWhile (fun x => x == '\n')
              = ['\n'] := by
            simp [List.takeWhile_cons, hc2]
          rw [hrun]
          simp only [List.length_singleton]
          rw [if_neg (by omega)]
          rw [show ('\n' :: c2 :: t2).drop 1 = c2 :: t2 from rfl]
          rw [ih (c2 :: t2) hf ht]
          rfl
      · rw [if_neg hc]
        rw [ih t hf ht]

theorem no_nlnl_append (X Y : List Char) (hXnl : X.contains '\n' = false)
    (hXne : X ≠ []) (hY : hasSub ['\n', '\n'] Y = false)
    (hYh : ∀ c t, Y = c :: t → c ≠ '\n') :
    hasSub ['\n', '\n'] (X ++ '\n' :: Y) = false := by
  induction X with
  | nil => exact absurd rfl hXne
  | cons c t ih =>
    obtain ⟨hc, ht⟩ := contains_false_head c t '\n' hXnl
    cases t with
    | nil =>
      show hasSub ['\n', '\n'] (c :: '\n' :: Y) = false
      rw [hasSub, hasSub, Bool.or_eq_false_iff, Bool.or_eq_false_iff]
      refine ⟨?_, ?_, hY⟩
      · simp only [List.isPrefixOf]
        simp
        intro hh
        exact absurd hh.symm hc
      · cases Y with
        | nil => rfl
        | cons c' t' =>
          have hc' : c' ≠ '\n' := hYh c' t' rfl
          simp only [List.isPrefixOf]
          simp
          intro hh
          exact absurd hh.symm hc'
    | cons c2 t2 =>
      rw [List.cons_append, hasSub, Bool.or_eq_false_iff]
      refine ⟨?_, ih ht (by simp)⟩
      simp only [List.isPrefixOf]
      simp
      intro hh
      exact absurd hh.symm hc

theorem fold_body_no_nlnl (interior : List String)
    (h : ∀ l ∈ interior, l.data ≠ [] ∧ l.data.contains '\n' = false) :
    hasSub ['\n', '\n']
        (interior.foldr (fun l acc => l.data ++ '\n' :: acc) "```".data) = false
    ∧ (∀ c t, interior.foldr (fun l acc => l.data ++ '\n' :: acc) "```".data
          = c :: t → c ≠ '\n')
    ∧ interior.foldr (fun l acc => l.data ++ '\n' :: acc) "```".data ≠ [] := by
  induction interior with
  | nil =>
    refine ⟨by decide, ?_, by decide⟩
    intro c t hh
    rw [show "```".data = ['`', '`', '`'] from rfl] at hh
    cases hh
    decide
  | cons l ls ih =>
    obtain ⟨ih1, ih2, ih3⟩ := ih (fun q hq => h q (List.mem_cons_of_mem _ hq))
    obtain ⟨hne, hnl⟩ := h l (List.mem_cons_self _ _)
    simp only [List.foldr_cons]
    refine ⟨no_nlnl_append _ _ hnl hne ih1 ih2, ?_, ?_⟩
    · intro c t hh
      cases hld : l.data with
      | nil => exact absurd hld hne
      | cons d ds =>
        rw [hld, List.cons_append] at hh
        obtain ⟨hd, -⟩ := contains_false_head d ds '\n' (hld ▸ hnl)
        cases hh
        exact hd
    · cases hld : l.data with
      | nil => exact absurd hld hne
      | cons d ds => simp [hld]

theorem content_no_nlnl (interior : List String)
    (h : ∀ l ∈ interior, l.data ≠ [] ∧ l.data.contains '\n' = false) :
    hasSub ['\n', '\n'] (fencedBlock interior).data = false := by
  rw [fencedBlock_data]
  obtain ⟨h1, h2, -⟩ := fold_body_no_nlnl interior h
  exact no_nlnl_append "```".data _ (by decide) (by decide) h1 h2

theorem noListAfterNl_tail (c : Char) (t : List Char)
    (h : noListAfterNl (c :: t) = true) : noListAfterNl t = true := by
  cases t with
  | nil => rfl
  | cons b t' =>
    simp only [noListAfterNl, Bool.and_eq_true] at h
    exact h.2

theorem matchListSpacingAt_none (c : Char) (t : List Char)
    (h : noListAfterNl (c :: t) = true) :
    matchListSpacingAt (c :: t) = none := by
  cases t with
  | nil => rfl
  | cons nl rest =>
    simp only [matchListSpacingAt]
    by_cases ha : c = '\n'
    · rw [if_pos ha]
    · rw [if_neg ha]
      by_cases hnl : nl = '\n'
      · rw [if_pos hnl]
        have h2 : noListAfterNl ('\n' :: rest) = true :=
          hnl ▸ noListAfterNl_tail c _ h
        cases rest with
        | nil => rfl
        | cons b r2 =>
          simp only [noListAfterNl, eq_self_iff_true, if_true,
            Bool.and_eq_true] at h2
          have hb := h2.1
          rw [Bool.not_eq_true'] at hb
          simp only [Bool.or_eq_false_iff, decide_eq_false_iff_not] at hb
          obtain ⟨⟨hb1, hb2⟩, hb3⟩ := hb
          have hcond : (decide (b = '-') || decide (b = '*')) = false := by
            simp [hb1, hb2]
          simp only [hcond, Bool.false_eq_true, if_false]
          simp [List.takeWhile_cons, hb3]
      · rw [if_neg hnl]

theorem listSpacingAux_id (fuel : Nat) (cs : List Char) (hf : cs.length ≤ fuel)
    (h : noListAfterNl cs = true) : listSpacingAux fuel cs = cs := by
  induction fuel generalizing cs with
  | zero => rfl
  | succ f ih =>
    cases cs with
    | nil => rfl
    | cons c t =>
      simp only [List.length_cons, Nat.succ_le_succ_iff] at hf
      rw [listSpacingAux, matchListSpacingAt_none c t h]
      rw [ih t hf (noListAfterNl_tail c t h)]

theorem noListAfterNl_append (X Y : List Char) (hX : X.contains '\n' = false)
    (hXne : X ≠ []) (hY : noListAfterNl Y = true)
    (hYh : ∀ c t, Y = c :: t → c ≠ '-' ∧ c ≠ '*' ∧ c.isDigit = false) :
    noListAfterNl (X ++ '\n' :: Y) = true := by
  induction X with
  | nil => exact absurd rfl hXne
  | cons c t ih =>
    obtain ⟨hc, ht⟩ := contains_false_head c t '\n' hX
    cases t with
    | nil =>
      show noListAfterNl (c :: '\n' :: Y) = true
      simp only [noListAfterNl, if_neg hc, Bool.true_and]
      cases Y with
      | nil => rfl
      | cons b t' =>
        obtain ⟨hb1, hb2, hb3⟩ := hYh b t' rfl
        simp only [noListAfterNl, if_pos rfl, Bool.and_eq_true]
        exact ⟨by simp [hb1, hb2, hb3], hY⟩
    | cons c2 t2 =>
      show noListAfterNl (c :: (c2 :: t2 ++ '\n' :: Y)) = true
      rw [List.cons_append]
      simp only [noListAfterNl, if_neg hc, Bool.true_and]
      rw [← List.cons_append]
      exact ih ht (by simp)

theorem fold_body_noList (interior : List String)
    (h : ∀ l ∈ interior,
      (∃ ds, l.data = ' ' :: ds ∨ l.data = '\t' :: ds)
      ∧ l.data.contains '\n' = false) :
    noListAfterNl
        (interior.foldr (fun l acc => l.data ++ '\n' :: acc) "```".data) = true
    ∧ (∀ c t, interior.foldr (fun l acc => l.data ++ '\n' :: acc) "```".data
          = c :: t → c ≠ '-' ∧ c ≠ '*' ∧ c.isDigit = false) := by
  induction interior with
  | nil =>
    refine ⟨by decide, ?_⟩
    intro c t hh
    rw [show "```".data = ['`', '`', '`'] from rfl] at hh
    cases hh
    decide
  | cons l ls ih =>
    obtain ⟨ih1, ih2⟩ := ih (fun q hq => h q (List.mem_cons_of_mem _ hq))
    obtain ⟨⟨ds, hds⟩, hnl⟩ := h l (List.mem_cons_self _ _)
    have hne : l.data ≠ [] := by rcases hds with hd | hd <;> simp [hd]
    simp only [List.foldr_cons]
    refine ⟨noListAfterNl_append _ _ hnl hne ih1 ih2, ?_⟩
    intro c t hh
    rcases hds with hd | hd <;>
      · rw [hd, List.cons_append] at hh
        cases hh
        decide

theorem content_noListAfterNl (interior : List String)
    (h : ∀ l ∈ interior,
      (∃ ds, l.data = ' ' :: ds ∨ l.data = '\t' :: ds)
      ∧ l.data.contains '\n' = false) :
    noListAfterNl (fencedBlock interior).data = true := by
  rw [fencedBlock_data]
  obtain ⟨h1, h2⟩ := fold_body_noList interior h
  exact noListAfterNl_append "```".data _ (by decide) (by decide) h1 h2

theorem isPrefixOf_cons_inv (a : Char) (as cs : List Char)
    (h : (a :: as).isPrefixOf cs = true) : ∃ t, cs = a :: t := by
  cases cs with
  | nil => simp [List.isPrefixOf] at h
  | cons c t =>
    simp only [List.isPrefixOf, Bool.and_eq_true, beq_iff_eq] at h
    exact ⟨t, by rw [h.1]⟩

/-- C7: amended preservation. A fenced code block whose interior lines
are all indented (start with four spaces or a tab), non-blank after
stripping, not bullet or numbered-list lines, and free of backticks and
newlines, passes through `format_markdown_response` unchanged. This is
the restriction under which the claimed identity actually holds; the
unrestricted claim is refuted by the counterexample
(`format_markdown_response` rewrites `* 2` inside a fence). -/
theorem c7_fenced_block_preserved (interior : List String)
    (h : ∀ l ∈ interior,
      (strStartsWith l "    " = true ∨ strStartsWith l "\t" = true)
      ∧ ¬(pyStrip l = "")
      ∧ matchBulletLine (pyStrip l) = none
      ∧ matchNumberedLine (pyStrip l) = none
      ∧ l.data.contains '`' = false
      ∧ l.data.contains '\n' = false) :
    format_markdown_response (fencedBlock interior) = fencedBlock interior := by
  have hnl' : ∀ l ∈ interior, l.data.contains '\n' = false :=
    fun l hl => (h l hl).2.2.2.2.2
  have hbt : ∀ l ∈ interior, l.data.contains '`' = false :=
    fun l hl => (h l hl).2.2.2.2.1
  have hhead : ∀ l ∈ interior,
      ∃ ds, l.data = ' ' :: ds ∨ l.data = '\t' :: ds := by
    intro l hl
    rcases (h l hl).1 with hs | hs
    · have hs' : ((' ' :: [' ', ' ', ' ']).isPrefixOf l.data) = true := hs
      obtain ⟨t, ht⟩ := isPrefixOf_cons_inv _ _ _ hs'
      exact ⟨t, Or.inl ht⟩
    · have hs' : (('\t' :: []).isPrefixOf l.data) = true := hs
      obtain ⟨t, ht⟩ := isPrefixOf_cons_inv _ _ _ hs'
      exact ⟨t, Or.inr ht⟩
  have hnn : ∀ l ∈ interior, l.data ≠ [] ∧ l.data.contains '\n' = false := by
    intro l hl
    refine ⟨?_, hnl' l hl⟩
    obtain ⟨ds, hds⟩ := hhead l hl
    rcases hds with hd | hd <;> simp [hd]
  have hhead' : ∀ l ∈ interior,
      (∃ ds, l.data = ' ' :: ds ∨ l.data = '\t' :: ds)
      ∧ l.data.contains '\n' = false :=
    fun l hl => ⟨hhead l hl, hnl' l hl⟩
  have hlines : ∀ l ∈ ("```" :: interior ++ ["```"] : List String),
      ¬(pyStrip l = "")
      ∧ matchBulletLine (pyStrip l) = none
      ∧ matchNumberedLine (pyStrip l) = none := by
    intro l hl
    rcases List.mem_append.mp hl with hl | hl
    · rcases List.mem_cons.mp hl with hl | hl
      · subst hl
        exact ⟨by decide, by decide, by decide⟩
      · exact ⟨(h l hl).2.1, (h l hl).2.2.1, (h l hl).2.2.2.1⟩
    · have : l = "```" := by simpa using hl
      subst this
      exact ⟨by decide, by decide, by decide⟩
  have hne : fencedBlock interior ≠ "" := by
    intro hh
    have hd := congrArg String.data hh
    rw [fencedBlock_data] at hd
    rw [show "```".data = ['`', '`', '`'] from rfl] at hd
    simp at hd
  unfold format_markdown_response
  rw [if_neg hne]
  dsimp only
  rw [pySplitLines_fenced interior hnl']
  rw [pass1_preserved _ hlines ⟨false, none, 1, []⟩ rfl]
  dsimp only
  rw [List.nil_append]
  rw [pyJoinLines_fenced]
  rw [mdPass2_fenced interior hbt]
  rw [collapseNl_id _ _ le_rfl (content_no_nlnl interior hnn)]
  show String.mk (listSpacingAux (fencedBlock interior).data.length
      (fencedBlock interior).data) = fencedBlock interior
  rw [listSpacingAux_id _ _ le_rfl (content_noListAfterNl interior hhead')]

/-- Witness for C7: the amended preservation theorem applied to the
concrete fenced block with interior line `    x`. -/
theorem c7_fenced_block_preserved_witness :
    format_markdown_response (fencedBlock ["    x"]) = fencedBlock ["    x"] :=
  c7_fenced_block_preserved ["    x"] (by decide)

end LlmCouncil
